import Mathlib

/-!
Verification of the scoring core of the cost-burdened-renters repository
(`backend/app/services/scoring.py`), shallowly embedded over the rationals.

The embedding keeps the source structure: the `Area` record, the pure
`normalize` function, the string-keyed configuration tables
`normalization_params` and `weights`, the module constant `TOTAL_WEIGHT`,
and `calculate_score`, whose loop performs an attribute lookup, a
parameter-table lookup and a normalization per weighted metric.  Python
raises `AttributeError` / `KeyError` on a missing name and
`ZeroDivisionError` on a zero denominator; these exceptional exits are
modelled with `Except`.
-/

set_option maxHeartbeats 1000000
set_option maxRecDepth 2000

namespace Scoring

/-- The `Area` record: one named location together with its 15 numeric
metrics, as declared by the pydantic model in `scoring.py`. -/
structure Area where
  name : String
  cost_of_living : ℚ
  median_rent : ℚ
  pct_new_renter_structures : ℚ
  pct_income_spent_on_rent : ℚ
  renters_insurance : ℚ
  vacancy_rate : ℚ
  pct_grapi_below_threshold : ℚ
  electricity_bill : ℚ
  job_growth : ℚ
  unemployment : ℚ
  commute_time : ℚ
  walk_score : ℚ
  transit_score : ℚ
  bike_score : ℚ
  eviction_laws : ℚ
deriving DecidableEq

/-- Model of Python's `getattr(area, metric)` restricted to the numeric
fields of `Area`: `none` models the `AttributeError` raised on an unknown
attribute name. -/
def Area.getattr (area : Area) : String → Option ℚ
  | "cost_of_living" => some area.cost_of_living
  | "median_rent" => some area.median_rent
  | "pct_new_renter_structures" => some area.pct_new_renter_structures
  | "pct_income_spent_on_rent" => some area.pct_income_spent_on_rent
  | "renters_insurance" => some area.renters_insurance
  | "vacancy_rate" => some area.vacancy_rate
  | "pct_grapi_below_threshold" => some area.pct_grapi_below_threshold
  | "electricity_bill" => some area.electricity_bill
  | "job_growth" => some area.job_growth
  | "unemployment" => some area.unemployment
  | "commute_time" => some area.commute_time
  | "walk_score" => some area.walk_score
  | "transit_score" => some area.transit_score
  | "bike_score" => some area.bike_score
  | "eviction_laws" => some area.eviction_laws
  | _ => none

/-- The metric normalizer of `scoring.py`: map a raw value into `[0, 10]`
given the configured range and directionality, clamping out-of-range
values.  Translated directly from the body of `normalize`. -/
def normalize (value min_val max_val : ℚ) (lower_is_better : Bool) : ℚ :=
  let normalized : ℚ :=
    if lower_is_better then (max_val - value) / (max_val - min_val)
    else (value - min_val) / (max_val - min_val)
  max 0 (min normalized 1) * 10

/-- One entry of the `normalization_params` table: the configured range
and directionality of a metric. -/
structure MetricParams where
  min : ℚ
  max : ℚ
  lower_is_better : Bool
deriving DecidableEq

/-- The shipped `normalization_params` dictionary of `scoring.py`,
in its source order. -/
def normalization_params : List (String × MetricParams) :=
  [("cost_of_living", ⟨70, 160, true⟩),
   ("median_rent", ⟨1000, 4000, true⟩),
   ("pct_new_renter_structures", ⟨0, 100000, false⟩),
   ("pct_income_spent_on_rent", ⟨0, 50, true⟩),
   ("renters_insurance", ⟨0, 50, true⟩),
   ("vacancy_rate", ⟨0, 11, true⟩),
   ("pct_grapi_below_threshold", ⟨0, 100, false⟩),
   ("electricity_bill", ⟨0, 300, true⟩),
   ("job_growth", ⟨-5, 10, false⟩),
   ("unemployment", ⟨2, 12, true⟩),
   ("commute_time", ⟨10, 120, true⟩),
   ("walk_score", ⟨0, 100, false⟩),
   ("transit_score", ⟨0, 100, false⟩),
   ("bike_score", ⟨0, 100, false⟩),
   ("eviction_laws", ⟨0, 1, false⟩)]

/-- The shipped `weights` dictionary of `scoring.py`, in its source
order. -/
def weights : List (String × ℚ) :=
  [("cost_of_living", 0.1),
   ("median_rent", 0.1),
   ("pct_new_renter_structures", 0.1),
   ("pct_income_spent_on_rent", 0.1),
   ("renters_insurance", 0.05),
   ("vacancy_rate", 0.05),
   ("pct_grapi_below_threshold", 0.1),
   ("electricity_bill", 0.05),
   ("job_growth", 0.1),
   ("unemployment", 0.1),
   ("commute_time", 0.05),
   ("walk_score", 0.05),
   ("transit_score", 0.05),
   ("bike_score", 0.05),
   ("eviction_laws", 0.05)]

/-- `sum(ws.values())`: the total of the weights of a weight table. -/
def totalWeight (ws : List (String × ℚ)) : ℚ :=
  (ws.map Prod.snd).sum

/-- `TOTAL_WEIGHT = sum(weights.values())`, computed once from the
shipped table. -/
def TOTAL_WEIGHT : ℚ :=
  totalWeight weights

/-- The exceptional exits of the scoring code: a zero denominator
(`ZeroDivisionError`, a broken configuration per the design) or a metric
name missing from the `Area` record or the parameter table
(`AttributeError` / `KeyError`). -/
inductive ScoringError where
  | configurationError : ScoringError
  | missingMetricError : ScoringError
deriving DecidableEq

/-- `normalize` as Python executes it: the division raises
`ZeroDivisionError` exactly when `max_val - min_val` is zero; otherwise
the pure value is returned. -/
def normalizeE (value min_val max_val : ℚ) (lower_is_better : Bool) :
    Except ScoringError ℚ :=
  if max_val - min_val = 0 then .error .configurationError
  else .ok (normalize value min_val max_val lower_is_better)

/-- The loop body of `calculate_score`: walk the weight table in order,
accumulating `total += weight * metric_score`, where each iteration looks
up the raw value on the area, looks up the metric's parameters, and
normalizes.  Any lookup failure or degenerate range aborts the loop, as
the corresponding Python exception would. -/
def scoreLoop (params : List (String × MetricParams)) (area : Area) :
    List (String × ℚ) → ℚ → Except ScoringError ℚ
  | [], total => .ok total
  | p :: rest, total =>
    match area.getattr p.1 with
    | none => .error .missingMetricError
    | some raw_value =>
      match List.lookup p.1 params with
      | none => .error .missingMetricError
      | some P =>
        match normalizeE raw_value P.min P.max P.lower_is_better with
        | .error e => .error e
        | .ok metric_score => scoreLoop params area rest (total + p.2 * metric_score)

/-- `calculate_score` generalized over the two configuration tables: run
the weighted loop from `total = 0`, then divide by the table's total
weight, which raises `ZeroDivisionError` when that total is zero. -/
def calculate_scoreE (params : List (String × MetricParams))
    (ws : List (String × ℚ)) (area : Area) : Except ScoringError ℚ :=
  match scoreLoop params area ws 0 with
  | .error e => .error e
  | .ok total =>
    if totalWeight ws = 0 then .error .configurationError
    else .ok (total / totalWeight ws)

/-- `calculate_score(area)` of `scoring.py`: the loop over the shipped
tables, divided by the shipped `TOTAL_WEIGHT`. -/
def calculate_score (area : Area) : Except ScoringError ℚ :=
  calculate_scoreE normalization_params weights area

/-- The normalized score of one metric of an area under a parameter
table, as computed in step (c) of the scoring loop
(`metric_score = normalize(raw_value, min, max, lower_is_better)`); used
to state the reference weighted sum. -/
def metricScore (params : List (String × MetricParams)) (area : Area)
    (m : String) : ℚ :=
  let P := (List.lookup m params).getD ⟨0, 0, false⟩
  normalize ((Area.getattr area m).getD 0) P.min P.max P.lower_is_better

/-! ### Basic facts about the normalizer -/

lemma normalize_nonneg (value min_val max_val : ℚ) (b : Bool) :
    0 ≤ normalize value min_val max_val b := by
  unfold normalize
  exact mul_nonneg (le_max_left 0 _) (by norm_num)

lemma normalize_le_ten (value min_val max_val : ℚ) (b : Bool) :
    normalize value min_val max_val b ≤ 10 := by
  unfold normalize
  have h1 : max 0 (min (if b then (max_val - value) / (max_val - min_val)
      else (value - min_val) / (max_val - min_val)) 1) ≤ 1 :=
    max_le (by norm_num) (min_le_right _ _)
  nlinarith

lemma normalize_true_eq (v min_val max_val : ℚ) :
    normalize v min_val max_val true =
      max 0 (min ((max_val - v) / (max_val - min_val)) 1) * 10 := rfl

lemma normalize_false_eq (v min_val max_val : ℚ) :
    normalize v min_val max_val false =
      max 0 (min ((v - min_val) / (max_val - min_val)) 1) * 10 := rfl

lemma normalize_antitone (v₁ v₂ min_val max_val : ℚ)
    (h : min_val < max_val) (hv : v₁ ≤ v₂) :
    normalize v₂ min_val max_val true ≤ normalize v₁ min_val max_val true := by
  rw [normalize_true_eq, normalize_true_eq]
  have hd : (0 : ℚ) < max_val - min_val := by linarith
  have hdiv : (max_val - v₂) / (max_val - min_val) ≤
      (max_val - v₁) / (max_val - min_val) :=
    (div_le_div_iff_of_pos_right hd).mpr (by linarith)
  gcongr

lemma normalize_monotone (v₁ v₂ min_val max_val : ℚ)
    (h : min_val < max_val) (hv : v₁ ≤ v₂) :
    normalize v₁ min_val max_val false ≤ normalize v₂ min_val max_val false := by
  rw [normalize_false_eq, normalize_false_eq]
  have hd : (0 : ℚ) < max_val - min_val := by linarith
  have hdiv : (v₁ - min_val) / (max_val - min_val) ≤
      (v₂ - min_val) / (max_val - min_val) :=
    (div_le_div_iff_of_pos_right hd).mpr (by linarith)
  gcongr

/-! ### The scoring loop on well-formed configurations -/

lemma scoreLoop_ok (params : List (String × MetricParams)) (area : Area) :
    ∀ (ws : List (String × ℚ)) (t : ℚ),
    (∀ p ∈ ws, (area.getattr p.1).isSome = true ∧
      ∃ P, List.lookup p.1 params = some P ∧ P.max ≠ P.min) →
    scoreLoop params area ws t =
      .ok (t + (ws.map fun p => p.2 * metricScore params area p.1).sum) := by
  intro ws
  induction ws with
  | nil => intro t _; simp [scoreLoop]
  | cons p rest ih =>
    intro t h
    obtain ⟨hsome, P, hP, hne⟩ := h p (List.mem_cons_self p rest)
    obtain ⟨v, hv⟩ := Option.isSome_iff_exists.mp hsome
    have hrest := fun q hq => h q (List.mem_cons_of_mem p hq)
    have hscore : metricScore params area p.1 =
        normalize v P.min P.max P.lower_is_better := by
      simp [metricScore, hP, hv]
    rw [scoreLoop, hv, hP]
    simp only [normalizeE, if_neg (sub_ne_zero.mpr hne)]
    rw [ih (t + p.2 * normalize v P.min P.max P.lower_is_better) hrest]
    simp only [List.map_cons, List.sum_cons, hscore]
    rw [add_assoc]

lemma calculate_scoreE_ok (params : List (String × MetricParams))
    (ws : List (String × ℚ)) (area : Area)
    (h : ∀ p ∈ ws, (area.getattr p.1).isSome = true ∧
      ∃ P, List.lookup p.1 params = some P ∧ P.max ≠ P.min)
    (hT : totalWeight ws ≠ 0) :
    calculate_scoreE params ws area =
      .ok ((ws.map fun p => p.2 * metricScore params area p.1).sum
        / totalWeight ws) := by
  rw [calculate_scoreE, scoreLoop_ok params area ws 0 h]
  simp [hT]

/-! ### The shipped configuration -/

lemma TOTAL_WEIGHT_eq : TOTAL_WEIGHT = 11 / 10 := by
  norm_num [TOTAL_WEIGHT, totalWeight, weights]

lemma shipped_weights_sound (area : Area) :
    ∀ p ∈ weights, (area.getattr p.1).isSome = true ∧
      ∃ P, List.lookup p.1 normalization_params = some P ∧ P.max ≠ P.min := by
  intro p hp
  fin_cases hp <;> exact ⟨rfl, _, rfl, by norm_num⟩

lemma calculate_score_eval (area : Area) :
    calculate_score area =
      .ok ((weights.map fun p => p.2 * metricScore normalization_params area p.1).sum
        / TOTAL_WEIGHT) := by
  have hT : totalWeight weights ≠ 0 := by
    norm_num [totalWeight, weights]
  exact calculate_scoreE_ok normalization_params weights area
    (shipped_weights_sound area) hT

lemma lookup_mem {α β : Type} [BEq α] [LawfulBEq α] (a : α) (b : β) :
    ∀ l : List (α × β), List.lookup a l = some b → (a, b) ∈ l := by
  intro l
  induction l with
  | nil => simp [List.lookup]
  | cons p rest ih =>
    rw [List.lookup]
    rcases hbeq : a == p.1 with _ | _
    · intro h
      exact List.mem_cons_of_mem p (ih h)
    · intro h
      injection h with h
      have ha : a = p.1 := eq_of_beq hbeq
      subst ha
      rw [← h]
      exact List.mem_cons_self p rest

lemma lookup_params_range (m : String) (P : MetricParams)
    (hP : List.lookup m normalization_params = some P) : P.min < P.max := by
  have hmem := lookup_mem m P normalization_params hP
  fin_cases hmem <;> norm_num

lemma shipped_weights_nonneg : ∀ p ∈ weights, (0 : ℚ) ≤ p.2 := by
  intro p hp
  fin_cases hp <;> norm_num

/-! ### Weighted-sum arithmetic -/

lemma weightedSum_nonneg (l : List (String × ℚ)) (f : String → ℚ)
    (hw : ∀ p ∈ l, (0 : ℚ) ≤ p.2) (hf : ∀ p ∈ l, 0 ≤ f p.1) :
    0 ≤ (l.map fun p => p.2 * f p.1).sum := by
  induction l with
  | nil => simp
  | cons p rest ih =>
    simp only [List.map_cons, List.sum_cons]
    have h1 := mul_nonneg (hw p (List.mem_cons_self p rest))
      (hf p (List.mem_cons_self p rest))
    have h2 := ih (fun q hq => hw q (List.mem_cons_of_mem p hq))
      (fun q hq => hf q (List.mem_cons_of_mem p hq))
    linarith

lemma weightedSum_le (l : List (String × ℚ)) (f : String → ℚ)
    (hw : ∀ p ∈ l, (0 : ℚ) ≤ p.2) (hf : ∀ p ∈ l, f p.1 ≤ 10) :
    (l.map fun p => p.2 * f p.1).sum ≤ 10 * totalWeight l := by
  induction l with
  | nil => simp [totalWeight]
  | cons p rest ih =>
    simp only [List.map_cons, List.sum_cons, totalWeight] at *
    have h1 : p.2 * f p.1 ≤ p.2 * 10 :=
      mul_le_mul_of_nonneg_left (hf p (List.mem_cons_self p rest))
        (hw p (List.mem_cons_self p rest))
    have h2 := ih (fun q hq => hw q (List.mem_cons_of_mem p hq))
      (fun q hq => hf q (List.mem_cons_of_mem p hq))
    linarith

/-! ### Reference normalizer, example data, scaling and error lemmas -/

/-- The §4.1 reference algorithm, written from the spec's words: compute
`raw` by directionality, clamp `raw` to `[0.0, 1.0]`, return `raw * 10`.
Stated separately from `normalize` so the two can be compared. -/
def normalize_spec (value min_val max_val : ℚ) (lower_is_better : Bool) : ℚ :=
  let raw : ℚ :=
    if lower_is_better then (max_val - value) / (max_val - min_val)
    else (value - min_val) / (max_val - min_val)
  let clamped : ℚ := if raw < 0 then 0 else if 1 < raw then 1 else raw
  clamped * 10

lemma clamp_eq (raw : ℚ) :
    max 0 (min raw 1) = if raw < 0 then 0 else if 1 < raw then 1 else raw := by
  rcases lt_or_le raw 0 with h0 | h0
  · rw [if_pos h0, min_eq_left (by linarith), max_eq_left (by linarith)]
  · rw [if_neg (not_lt.mpr h0)]
    rcases lt_or_le 1 raw with h1 | h1
    · rw [if_pos h1, min_eq_right (by linarith), max_eq_right (by norm_num)]
    · rw [if_neg (not_lt.mpr h1), min_eq_left h1, max_eq_right h0]

/-- The Orlando, FL example record from the `__main__` block of
`scoring.py`. -/
def orl_fl : Area :=
  { name := "Orlando", cost_of_living := 102.3, median_rent := 1581,
    pct_new_renter_structures := 10000, pct_income_spent_on_rent := 33.33,
    renters_insurance := 22, vacancy_rate := 10.9,
    pct_grapi_below_threshold := 39, electricity_bill := 276,
    job_growth := 1.2, unemployment := 2.8, commute_time := 27.5,
    walk_score := 41, transit_score := 55, bike_score := 26,
    eviction_laws := 0 }

/-- The Orlando record with a single metric improved (unemployment, a
lower-is-better metric, decreased); used to exercise per-metric
monotonicity on concrete data. -/
def orl_fl_better : Area :=
  { orl_fl with unemployment := 2 }

lemma scoreLoop_scale (params : List (String × MetricParams)) (area : Area)
    (c : ℚ) :
    ∀ (ws : List (String × ℚ)) (t : ℚ),
    scoreLoop params area (ws.map fun p => (p.1, c * p.2)) (c * t) =
      (scoreLoop params area ws t).map fun x => c * x := by
  intro ws
  induction ws with
  | nil => intro t; simp [scoreLoop, Except.map]
  | cons p rest ih =>
    intro t
    simp only [List.map_cons]
    rw [scoreLoop, scoreLoop]
    cases harea : area.getattr p.1 with
    | none => simp [Except.map]
    | some v =>
      simp only []
      cases hP : List.lookup p.1 params with
      | none => simp [Except.map]
      | some P =>
        simp only []
        cases hnorm : normalizeE v P.min P.max P.lower_is_better with
        | error e => simp [Except.map]
        | ok s =>
          simp only []
          rw [show c * t + c * p.2 * s = c * (t + p.2 * s) from by ring]
          exact ih (t + p.2 * s)

lemma totalWeight_scale (c : ℚ) (ws : List (String × ℚ)) :
    totalWeight (ws.map fun p => (p.1, c * p.2)) = c * totalWeight ws := by
  unfold totalWeight
  induction ws with
  | nil => simp
  | cons p rest ih =>
    simp only [List.map_cons, List.sum_cons, ih]
    ring

lemma scoreLoop_error_of_degenerate (params : List (String × MetricParams))
    (area : Area) :
    ∀ (ws : List (String × ℚ)) (t : ℚ),
    (∀ p ∈ ws, (area.getattr p.1).isSome = true ∧
      (List.lookup p.1 params).isSome = true) →
    (∃ p ∈ ws, ∃ P, List.lookup p.1 params = some P ∧ P.max = P.min) →
    ∃ e, scoreLoop params area ws t = .error e := by
  intro ws
  induction ws with
  | nil => intro t _ hex; simp at hex
  | cons p rest ih =>
    intro t h hex
    obtain ⟨hsome, hlook⟩ := h p (List.mem_cons_self p rest)
    obtain ⟨v, hv⟩ := Option.isSome_iff_exists.mp hsome
    obtain ⟨P, hP⟩ := Option.isSome_iff_exists.mp hlook
    by_cases hdeg : P.max = P.min
    · refine ⟨.configurationError, ?_⟩
      rw [scoreLoop, hv, hP]
      simp only [normalizeE, if_pos (show P.max - P.min = 0 from by rw [hdeg]; ring)]
    · obtain ⟨q, hq, Q, hQ, hQdeg⟩ := hex
      rcases List.mem_cons.mp hq with rfl | hq'
      · rw [hP] at hQ
        injection hQ with hQ
        subst hQ
        exact absurd hQdeg hdeg
      · obtain ⟨e, he⟩ := ih (t + p.2 * normalize v P.min P.max P.lower_is_better)
          (fun q hq => h q (List.mem_cons_of_mem p hq)) ⟨q, hq', Q, hQ, hQdeg⟩
        refine ⟨e, ?_⟩
        rw [scoreLoop, hv, hP]
        simp only [normalizeE, if_neg (sub_ne_zero.mpr hdeg)]
        exact he

lemma weightedSum_mono (l : List (String × ℚ)) (f g : String → ℚ)
    (hw : ∀ p ∈ l, (0 : ℚ) ≤ p.2) (hfg : ∀ p ∈ l, f p.1 ≤ g p.1) :
    (l.map fun p => p.2 * f p.1).sum ≤ (l.map fun p => p.2 * g p.1).sum := by
  induction l with
  | nil => simp
  | cons p rest ih =>
    simp only [List.map_cons, List.sum_cons]
    have h1 : p.2 * f p.1 ≤ p.2 * g p.1 :=
      mul_le_mul_of_nonneg_left (hfg p (List.mem_cons_self p rest))
        (hw p (List.mem_cons_self p rest))
    have h2 := ih (fun q hq => hw q (List.mem_cons_of_mem p hq))
      (fun q hq => hfg q (List.mem_cons_of_mem p hq))
    linarith

lemma metricScore_nonneg (params : List (String × MetricParams)) (area : Area)
    (m : String) : 0 ≤ metricScore params area m :=
  normalize_nonneg _ _ _ _

lemma metricScore_le_ten (params : List (String × MetricParams)) (area : Area)
    (m : String) : metricScore params area m ≤ 10 :=
  normalize_le_ten _ _ _ _

lemma orl_fl_score : calculate_score orl_fl = .ok (223163 / 49500) := by
  rw [calculate_score_eval orl_fl, TOTAL_WEIGHT_eq]
  rw [show (weights.map fun p => p.2 * metricScore normalization_params orl_fl p.1) =
    [0.1 * normalize 102.3 70 160 true,
     0.1 * normalize 1581 1000 4000 true,
     0.1 * normalize 10000 0 100000 false,
     0.1 * normalize 33.33 0 50 true,
     0.05 * normalize 22 0 50 true,
     0.05 * normalize 10.9 0 11 true,
     0.1 * normalize 39 0 100 false,
     0.05 * normalize 276 0 300 true,
     0.1 * normalize 1.2 (-5) 10 false,
     0.1 * normalize 2.8 2 12 true,
     0.05 * normalize 27.5 10 120 true,
     0.05 * normalize 41 0 100 false,
     0.05 * normalize 55 0 100 false,
     0.05 * normalize 26 0 100 false,
     0.05 * normalize 0 0 1 false] from rfl]
  norm_num [normalize_true_eq, normalize_false_eq, max_def, min_def,
    List.sum_cons, List.sum_nil]

lemma orl_fl_better_score :
    calculate_score orl_fl_better = .ok (226763 / 49500) := by
  rw [calculate_score_eval orl_fl_better, TOTAL_WEIGHT_eq]
  rw [show (weights.map fun p => p.2 * metricScore normalization_params orl_fl_better p.1) =
    [0.1 * normalize 102.3 70 160 true,
     0.1 * normalize 1581 1000 4000 true,
     0.1 * normalize 10000 0 100000 false,
     0.1 * normalize 33.33 0 50 true,
     0.05 * normalize 22 0 50 true,
     0.05 * normalize 10.9 0 11 true,
     0.1 * normalize 39 0 100 false,
     0.05 * normalize 276 0 300 true,
     0.1 * normalize 1.2 (-5) 10 false,
     0.1 * normalize 2 2 12 true,
     0.05 * normalize 27.5 10 120 true,
     0.05 * normalize 41 0 100 false,
     0.05 * normalize 55 0 100 false,
     0.05 * normalize 26 0 100 false,
     0.05 * normalize 0 0 1 false] from rfl]
  norm_num [normalize_true_eq, normalize_false_eq, max_def, min_def,
    List.sum_cons, List.sum_nil]

/-! ### The claims -/

/-- C1: for every configuration with `max ≠ min`, every value and every
directionality, `normalize` returns a result in the closed interval
`[0, 10]`, however far the value lies outside `[min, max]`. -/
theorem normalize_bounded (value min_val max_val : ℚ) (lower_is_better : Bool)
    (h : max_val ≠ min_val) :
    0 ≤ normalize value min_val max_val lower_is_better ∧
      normalize value min_val max_val lower_is_better ≤ 10 :=
  ⟨normalize_nonneg value min_val max_val lower_is_better,
   normalize_le_ten value min_val max_val lower_is_better⟩

theorem normalize_bounded_witness :
    (160 : ℚ) ≠ 70 ∧
      (0 ≤ normalize 500 70 160 true ∧ normalize 500 70 160 true ≤ 10) :=
  ⟨by norm_num, normalize_bounded 500 70 160 true (by norm_num)⟩

/-- C2: for `max ≠ min`, `normalize` coincides with the reference
definition of §4.1: the directional ratio `raw`, clamped to `[0, 1]`, then
scaled by 10. -/
theorem normalize_matches_reference (value min_val max_val : ℚ) (b : Bool)
    (h : max_val ≠ min_val) :
    normalize value min_val max_val b = normalize_spec value min_val max_val b := by
  simp only [normalize, normalize_spec]
  rw [clamp_eq]

theorem normalize_matches_reference_witness :
    (4000 : ℚ) ≠ 1000 ∧
      normalize 1581 1000 4000 true = normalize_spec 1581 1000 4000 true :=
  ⟨by norm_num, normalize_matches_reference 1581 1000 4000 true (by norm_num)⟩

/-- C3: for every `Area`, `calculate_score` returns the sum over the
weight table of `weight * normalize(value, min, max, lower_is_better)`,
divided by `TOTAL_WEIGHT`, the once-computed sum of all weights. -/
theorem calculate_score_eq_weighted_sum (area : Area) :
    calculate_score area =
      .ok ((weights.map fun p =>
        p.2 * metricScore normalization_params area p.1).sum / TOTAL_WEIGHT) :=
  calculate_score_eval area

/-- C4: for every `Area` whose configured metric values all lie within
their configured `[min, max]`, the composite score lies in `[0, 10]`. -/
theorem calculate_score_bounded (area : Area)
    (hin : ∀ p ∈ weights,
      ((List.lookup p.1 normalization_params).getD ⟨0, 0, false⟩).min ≤
        (area.getattr p.1).getD 0 ∧
      (area.getattr p.1).getD 0 ≤
        ((List.lookup p.1 normalization_params).getD ⟨0, 0, false⟩).max)
    (r : ℚ) (hr : calculate_score area = .ok r) : 0 ≤ r ∧ r ≤ 10 := by
  rw [calculate_score_eval area] at hr
  injection hr with hr
  have h0 : 0 ≤ (weights.map fun p =>
      p.2 * metricScore normalization_params area p.1).sum :=
    weightedSum_nonneg weights _ shipped_weights_nonneg
      (fun p _ => metricScore_nonneg normalization_params area p.1)
  have h10 : (weights.map fun p =>
      p.2 * metricScore normalization_params area p.1).sum ≤
      10 * totalWeight weights :=
    weightedSum_le weights _ shipped_weights_nonneg
      (fun p _ => metricScore_le_ten normalization_params area p.1)
  rw [show totalWeight weights = 11 / 10 from TOTAL_WEIGHT_eq] at h10
  rw [← hr, TOTAL_WEIGHT_eq]
  constructor
  · exact div_nonneg h0 (by norm_num)
  · rw [div_le_iff₀ (by norm_num : (0 : ℚ) < 11 / 10)]
    linarith

theorem calculate_score_bounded_witness :
    (∀ p ∈ weights,
      ((List.lookup p.1 normalization_params).getD ⟨0, 0, false⟩).min ≤
        (orl_fl.getattr p.1).getD 0 ∧
      (orl_fl.getattr p.1).getD 0 ≤
        ((List.lookup p.1 normalization_params).getD ⟨0, 0, false⟩).max) ∧
    (0 ≤ (223163 : ℚ) / 49500 ∧ (223163 : ℚ) / 49500 ≤ 10) := by
  constructor
  · intro p hp
    fin_cases hp <;>
      exact ⟨by with_unfolding_all decide, by with_unfolding_all decide⟩
  · exact calculate_score_bounded orl_fl
      (by
        intro p hp
        fin_cases hp <;>
          exact ⟨by with_unfolding_all decide, by with_unfolding_all decide⟩)
      _ orl_fl_score

/-- C5: for `min < max`, `normalize` is exact at the configured
boundaries and saturates 1000 units beyond them, in both
directionalities. -/
theorem normalize_boundary_saturation (min_val max_val : ℚ)
    (h : min_val < max_val) :
    normalize min_val min_val max_val true = 10 ∧
    normalize max_val min_val max_val true = 0 ∧
    normalize min_val min_val max_val false = 0 ∧
    normalize max_val min_val max_val false = 10 ∧
    normalize (min_val - 1000) min_val max_val true = 10 ∧
    normalize (max_val + 1000) min_val max_val true = 0 ∧
    normalize (min_val - 1000) min_val max_val false = 0 ∧
    normalize (max_val + 1000) min_val max_val false = 10 := by
  have hd : (0 : ℚ) < max_val - min_val := by linarith
  refine ⟨?_, ?_, ?_, ?_, ?_, ?_, ?_, ?_⟩
  · rw [normalize_true_eq, div_self hd.ne']; norm_num
  · rw [normalize_true_eq, sub_self, zero_div]; norm_num
  · rw [normalize_false_eq, sub_self, zero_div]; norm_num
  · rw [normalize_false_eq, div_self hd.ne']; norm_num
  · rw [normalize_true_eq]
    have h1 : (1 : ℚ) ≤ (max_val - (min_val - 1000)) / (max_val - min_val) := by
      rw [le_div_iff₀ hd]; linarith
    rw [min_eq_right h1, max_eq_right (by norm_num : (0 : ℚ) ≤ 1)]; norm_num
  · rw [normalize_true_eq]
    have h1 : (max_val - (max_val + 1000)) / (max_val - min_val) ≤ 0 :=
      div_nonpos_of_nonpos_of_nonneg (by linarith) (by linarith)
    rw [min_eq_left (by linarith), max_eq_left h1]; norm_num
  · rw [normalize_false_eq]
    have h1 : (min_val - 1000 - min_val) / (max_val - min_val) ≤ 0 :=
      div_nonpos_of_nonpos_of_nonneg (by linarith) (by linarith)
    rw [min_eq_left (by linarith), max_eq_left h1]; norm_num
  · rw [normalize_false_eq]
    have h1 : (1 : ℚ) ≤ (max_val + 1000 - min_val) / (max_val - min_val) := by
      rw [le_div_iff₀ hd]; linarith
    rw [min_eq_right h1, max_eq_right (by norm_num : (0 : ℚ) ≤ 1)]; norm_num

theorem normalize_boundary_saturation_witness :
    (0 : ℚ) < 1 ∧
      (normalize 0 0 1 true = 10 ∧
       normalize 1 0 1 true = 0 ∧
       normalize 0 0 1 false = 0 ∧
       normalize 1 0 1 false = 10 ∧
       normalize (0 - 1000) 0 1 true = 10 ∧
       normalize (1 + 1000) 0 1 true = 0 ∧
       normalize (0 - 1000) 0 1 false = 0 ∧
       normalize (1 + 1000) 0 1 false = 10) :=
  ⟨by norm_num, normalize_boundary_saturation 0 1 (by norm_num)⟩

/-- C6: for a fixed range with `min < max`, `normalize` is non-increasing
in the value when `lower_is_better` is true and non-decreasing when it is
false. -/
theorem normalize_directional_monotone (v₁ v₂ min_val max_val : ℚ)
    (h : min_val < max_val) (hv : v₁ ≤ v₂) :
    normalize v₂ min_val max_val true ≤ normalize v₁ min_val max_val true ∧
      normalize v₁ min_val max_val false ≤ normalize v₂ min_val max_val false :=
  ⟨normalize_antitone v₁ v₂ min_val max_val h hv,
   normalize_monotone v₁ v₂ min_val max_val h hv⟩

theorem normalize_directional_monotone_witness :
    (0 : ℚ) < 10 ∧ (1 : ℚ) ≤ 2 ∧
      (normalize 2 0 10 true ≤ normalize 1 0 10 true ∧
       normalize 1 0 10 false ≤ normalize 2 0 10 false) :=
  ⟨by norm_num, by norm_num,
   normalize_directional_monotone 1 2 0 10 (by norm_num) (by norm_num)⟩

/-- C7: scaling every weight of a weight table by one positive constant
(and with it the table's total weight) leaves the composite score
unchanged, exactly, over the rationals. -/
theorem weight_scale_invariance (params : List (String × MetricParams))
    (ws : List (String × ℚ)) (area : Area) (c : ℚ) (hc : 0 < c) :
    calculate_scoreE params (ws.map fun p => (p.1, c * p.2)) area =
      calculate_scoreE params ws area := by
  unfold calculate_scoreE
  have hsl := scoreLoop_scale params area c ws 0
  rw [mul_zero] at hsl
  rw [hsl, totalWeight_scale c ws]
  cases scoreLoop params area ws 0 with
  | error e => rfl
  | ok total =>
    simp only [Except.map]
    rcases eq_or_ne (totalWeight ws) 0 with h0 | h0
    · rw [h0, mul_zero, if_pos (rfl : (0 : ℚ) = 0), if_pos (rfl : (0 : ℚ) = 0)]
    · rw [if_neg (mul_ne_zero hc.ne' h0), if_neg h0,
        mul_div_mul_left total (totalWeight ws) hc.ne']

theorem weight_scale_invariance_witness :
    (0 : ℚ) < 2 ∧
      calculate_scoreE normalization_params
          (weights.map fun p => (p.1, 2 * p.2)) orl_fl =
        calculate_scoreE normalization_params weights orl_fl :=
  ⟨by norm_num,
   weight_scale_invariance normalization_params weights orl_fl 2 (by norm_num)⟩

/-- C8: when every weighted metric resolves on the area and in the
parameter table, scoring takes the error exit exactly when some
configured metric has `max = min` or the total weight is zero; it never
silently returns a number in those cases. -/
theorem score_error_iff (params : List (String × MetricParams))
    (ws : List (String × ℚ)) (area : Area)
    (h1 : ∀ p ∈ ws, (area.getattr p.1).isSome = true)
    (h2 : ∀ p ∈ ws, (List.lookup p.1 params).isSome = true) :
    (∃ e, calculate_scoreE params ws area = .error e) ↔
      ((∃ p ∈ ws, ∃ P, List.lookup p.1 params = some P ∧ P.max = P.min) ∨
        totalWeight ws = 0) := by
  constructor
  · rintro ⟨e, he⟩
    by_contra hcon
    push_neg at hcon
    obtain ⟨hnodeg, hT⟩ := hcon
    have hok := calculate_scoreE_ok params ws area ?_ hT
    · rw [hok] at he
      exact Except.noConfusion he
    · intro p hp
      refine ⟨h1 p hp, ?_⟩
      obtain ⟨P, hP⟩ := Option.isSome_iff_exists.mp (h2 p hp)
      exact ⟨P, hP, fun hPP => hnodeg p hp P hP hPP⟩
  · intro hcase
    rcases hcase with hdeg | hT
    · obtain ⟨e, he⟩ := scoreLoop_error_of_degenerate params area ws 0
        (fun p hp => ⟨h1 p hp, h2 p hp⟩) hdeg
      exact ⟨e, by rw [calculate_scoreE, he]⟩
    · rw [calculate_scoreE]
      cases scoreLoop params area ws 0 with
      | error e => exact ⟨e, rfl⟩
      | ok total =>
        refine ⟨.configurationError, ?_⟩
        show (if totalWeight ws = 0 then Except.error ScoringError.configurationError
          else Except.ok (total / totalWeight ws)) =
            Except.error ScoringError.configurationError
        rw [if_pos hT]

theorem score_error_iff_witness :
    (∀ p ∈ weights, (orl_fl.getattr p.1).isSome = true) ∧
    (∀ p ∈ weights, (List.lookup p.1 normalization_params).isSome = true) ∧
    ((∃ e, calculate_scoreE normalization_params weights orl_fl = .error e) ↔
      ((∃ p ∈ weights, ∃ P, List.lookup p.1 normalization_params = some P ∧
          P.max = P.min) ∨
        totalWeight weights = 0)) := by
  refine ⟨?_, ?_, ?_⟩
  · intro p hp; fin_cases hp <;> rfl
  · intro p hp; fin_cases hp <;> rfl
  · exact score_error_iff normalization_params weights orl_fl
      (by intro p hp; fin_cases hp <;> rfl)
      (by intro p hp; fin_cases hp <;> rfl)

/-- C9: the shipped configuration is well-formed — every weighted metric
is a field of `Area` and has parameters with `min < max`, every weight is
non-negative and `TOTAL_WEIGHT` is positive — so `calculate_score`
succeeds on every `Area`. -/
theorem shipped_config_wellformed :
    (∀ p ∈ weights, ∀ area : Area, (area.getattr p.1).isSome = true) ∧
    (∀ p ∈ weights, ∃ P, List.lookup p.1 normalization_params = some P ∧
      P.min < P.max) ∧
    (∀ p ∈ weights, (0 : ℚ) ≤ p.2) ∧
    0 < TOTAL_WEIGHT ∧
    (∀ area : Area, ∃ r, calculate_score area = .ok r) := by
  refine ⟨?_, ?_, shipped_weights_nonneg, ?_, ?_⟩
  · intro p hp area
    fin_cases hp <;> rfl
  · intro p hp
    fin_cases hp <;> exact ⟨_, rfl, by norm_num⟩
  · rw [TOTAL_WEIGHT_eq]; norm_num
  · intro area
    exact ⟨_, calculate_score_eval area⟩

/-- C10: under the shipped configuration, improving a single configured
metric in its desirable direction (smaller when `lower_is_better`, larger
otherwise) while the other weighted metrics stay fixed never decreases
the composite score. -/
theorem score_monotone_per_metric (area area' : Area) (m : String)
    (P : MetricParams) (hP : List.lookup m normalization_params = some P)
    (hagree : ∀ p ∈ weights, p.1 ≠ m → area'.getattr p.1 = area.getattr p.1)
    (v v' : ℚ) (hv : area.getattr m = some v) (hv' : area'.getattr m = some v')
    (hdir : if P.lower_is_better then v' ≤ v else v ≤ v')
    (r r' : ℚ) (hr : calculate_score area = .ok r)
    (hr' : calculate_score area' = .ok r') : r ≤ r' := by
  rw [calculate_score_eval area] at hr
  rw [calculate_score_eval area'] at hr'
  injection hr with hr
  injection hr' with hr'
  have hrange := lookup_params_range m P hP
  have key : ∀ p ∈ weights, metricScore normalization_params area p.1 ≤
      metricScore normalization_params area' p.1 := by
    intro p hp
    by_cases hm : p.1 = m
    · have e : metricScore normalization_params area p.1 =
          normalize v P.min P.max P.lower_is_better := by
        simp [metricScore, hm, hP, hv]
      have e' : metricScore normalization_params area' p.1 =
          normalize v' P.min P.max P.lower_is_better := by
        simp [metricScore, hm, hP, hv']
      rw [e, e']
      cases hb : P.lower_is_better with
      | false =>
        rw [hb] at hdir
        simp only [Bool.false_eq_true, if_false] at hdir
        exact normalize_monotone v v' P.min P.max hrange hdir
      | true =>
        rw [hb] at hdir
        simp only [if_true] at hdir
        exact normalize_antitone v' v P.min P.max hrange hdir
    · have hag : area'.getattr p.1 = area.getattr p.1 := hagree p hp hm
      simp [metricScore, hag]
  have hsum := weightedSum_mono weights _ _ shipped_weights_nonneg key
  rw [← hr, ← hr', TOTAL_WEIGHT_eq]
  gcongr

theorem score_monotone_per_metric_witness :
    List.lookup "unemployment" normalization_params =
        some ⟨2, 12, true⟩ ∧
      (223163 : ℚ) / 49500 ≤ 226763 / 49500 := by
  constructor
  · rfl
  · exact score_monotone_per_metric orl_fl orl_fl_better "unemployment"
      ⟨2, 12, true⟩ rfl
      (by intro p hp; fin_cases hp <;> intro h <;> first | rfl | exact absurd rfl h)
      2.8 2 rfl rfl (by norm_num) _ _ orl_fl_score orl_fl_better_score

end Scoring
